import Mathlib

/-!
Shallow embedding of the KCNA_PREP conversion tools:
  src/tools/build_kcna_from_pdf.py  (Pipeline A: build-from-scratch)
  src/tools/fill_options_from_pdf.py (Pipeline B: fill-gaps)

Pure parsing and merging logic is translated faithfully; file IO, the
external pdftotext invocation and JSON serialisation are out of scope
(the spec treats them as external collaborators).  Python dictionaries
are modelled as insertion-ordered association lists where assigning an
existing key keeps its position (matching CPython dict semantics).
Machine text is modelled as Lean String / List Char; the Python regexes
are hand-compiled to character-level recognisers.
-/

set_option maxHeartbeats 1000000

/-- Whitespace per the Python regex class backslash-s and str.strip for
unicode strings: ASCII whitespace, file/group/record/unit separators and
the common Unicode space code points. -/
def pyIsSpace (c : Char) : Bool :=
  let n := c.toNat
  n = 32 || n = 9 || n = 10 || n = 13 || n = 11 || n = 12 ||
  n = 28 || n = 29 || n = 30 || n = 31 || n = 133 || n = 160 ||
  n = 5760 || (8192 ≤ n && n ≤ 8202) || n = 8232 || n = 8233 ||
  n = 8239 || n = 8287 || n = 12288

/-- Drop leading whitespace from a character list. -/
def dropWs (l : List Char) : List Char := l.dropWhile pyIsSpace

/-- Python str.strip() on a character list. -/
def pyStrip (l : List Char) : List Char :=
  ((l.dropWhile pyIsSpace).reverse.dropWhile pyIsSpace).reverse

/-- Python str.strip() on a string. -/
def pyStripS (s : String) : String := String.mk (pyStrip s.toList)

/-- Python str.rstrip() (whitespace) on a string. -/
def pyRStrip (s : String) : String :=
  String.mk ((s.toList.reverse.dropWhile pyIsSpace).reverse)

/-- Python s.rstrip(chr(10)): strip trailing newline characters only. -/
def rstripNl (s : String) : String :=
  String.mk ((s.toList.reverse.dropWhile (fun c => c = '\n')).reverse)

/-- Value of a nonempty decimal digit run, as Python int() computes it. -/
def digitsToNat (ds : List Char) : Nat :=
  ds.foldl (fun a c => a * 10 + (c.toNat - 48)) 0

/-- List analogue of str.startswith (the position-based String
functions of the core library do not reduce in the kernel, so the
embedding stays on character lists throughout). -/
def startsWithL (p l : List Char) : Bool :=
  match p, l with
  | [], _ => true
  | _ :: _, [] => false
  | a :: ps, c :: cs => c = a && startsWithL ps cs

/-- Python sep.join for a single-space separator, on character lists. -/
def pyJoinSpace : List String → List Char
  | [] => []
  | x :: rest => rest.foldl (fun a y => a ++ ' ' :: y.toList) x.toList

def splitOnDotAux : List Char → List Char → List (List Char)
  | [], cur => [cur.reverse]
  | '.' :: rest, cur => cur.reverse :: splitOnDotAux rest []
  | c :: rest, cur => splitOnDotAux rest (c :: cur)

/-- Python k.split with a dot separator, on character lists. -/
def splitOnDot (l : List Char) : List (List Char) := splitOnDotAux l []

/-- Case-sensitive literal prefix: returns the remainder on success. -/
def stripExact : List Char → List Char → Option (List Char)
  | [], l => some l
  | _ :: _, [] => none
  | p :: ps, c :: l => if c = p then stripExact ps l else none

/-- Case-insensitive literal prefix (pattern given in lowercase):
returns the remainder on success. -/
def stripCaseless : List Char → List Char → Option (List Char)
  | [], l => some l
  | _ :: _, [] => none
  | p :: ps, c :: l => if c.toLower = p then stripCaseless ps l else none

/-! ### Line classifiers

Both source files compile the identical regular expressions
(re_quizzes, re_solutions, the section / question / option patterns and
the page-number artifact check), so the recognisers are shared. -/

/-- Regex `^\s*1\s+Quizzes\s*$` (and the `2 Solutions` variant). -/
def isHeaderLine (n : Char) (word : List Char) (s : String) : Bool :=
  match dropWs s.toList with
  | a :: rest =>
    a = n &&
    (match rest with
     | c :: _ =>
       pyIsSpace c &&
       (match stripExact word (dropWs rest) with
        | some tail => tail.all pyIsSpace
        | none => false)
     | [] => false)
  | [] => false

def isQuizzesHeader (s : String) : Bool :=
  isHeaderLine '1' ['Q', 'u', 'i', 'z', 'z', 'e', 's'] s

def isSolutionsHeader (s : String) : Bool :=
  isHeaderLine '2' ['S', 'o', 'l', 'u', 't', 'i', 'o', 'n', 's'] s

/-- Regex `^\s*N\.(\d+)\s+(.*)` for a section header `N.<idx> <title>`;
yields the digit run (kept as a string, as the sources interpolate it
into the section key) and the raw title. -/
def matchSecN (n : Char) (s : String) : Option (String × String) :=
  match dropWs s.toList with
  | a :: '.' :: r =>
    if a = n then
      let ds := r.takeWhile Char.isDigit
      if ds.isEmpty then none
      else
        match r.dropWhile Char.isDigit with
        | c :: rest2 =>
          if pyIsSpace c then some (String.mk ds, String.mk (dropWs rest2))
          else none
        | [] => none
    else none
  | _ => none

/-- Regex `^\s*(\d+)\.\s*(.*)`: a question-start line. -/
def matchQ (s : String) : Option (Nat × String) :=
  let l := dropWs s.toList
  let ds := l.takeWhile Char.isDigit
  if ds.isEmpty then none
  else
    match l.dropWhile Char.isDigit with
    | '.' :: r => some (digitsToNat ds, String.mk (dropWs r))
    | _ => none

/-- Regex `^\s*([A-E])\.(.*)`: an option-start line.  The rest of the
line after the dot is returned verbatim (the callers strip it). -/
def matchOpt (s : String) : Option (Char × String) :=
  match dropWs s.toList with
  | c :: '.' :: r =>
    if 'A' ≤ c && c ≤ 'E' then some (c, String.mk r) else none
  | _ => none

/-- Regex fullmatch `\s*\d+\s*`: a page-number artifact line. -/
def isPageArtifact (s : String) : Bool :=
  let l := dropWs s.toList
  let ds := l.takeWhile Char.isDigit
  !ds.isEmpty && (l.dropWhile Char.isDigit).all pyIsSpace

/-- `s.strip().startswith(A-n-s-w-e-r)` as used by both quiz parsers. -/
def startsWithAnswer (s : String) : Bool :=
  startsWithL ['A', 'n', 's', 'w', 'e', 'r'] (pyStrip s.toList)

/-- Regex `^\s*(\d+)\.\s*Question\s*(.*)` with IGNORECASE: the
solution-section question-start line. -/
def matchQSol (s : String) : Option (Nat × String) :=
  let l := dropWs s.toList
  let ds := l.takeWhile Char.isDigit
  if ds.isEmpty then none
  else
    match l.dropWhile Char.isDigit with
    | '.' :: r =>
      match stripCaseless ['q', 'u', 'e', 's', 't', 'i', 'o', 'n'] (dropWs r) with
      | some rest => some (digitsToNat ds, String.mk (dropWs rest))
      | none => none
    | _ => none

/-- Attempt to match `Correct\s+Answer\s*:\s*([A-E])` (IGNORECASE)
starting exactly at the head of the list. -/
def ansAt (l : List Char) : Option Char :=
  match stripCaseless ['c', 'o', 'r', 'r', 'e', 'c', 't'] l with
  | some l1 =>
    match l1 with
    | c :: rest =>
      if pyIsSpace c then
        match stripCaseless ['a', 'n', 's', 'w', 'e', 'r'] (dropWs rest) with
        | some l3 =>
          match dropWs l3 with
          | ':' :: l4 =>
            match dropWs l4 with
            | c2 :: _ =>
              if ('A' ≤ c2 && c2 ≤ 'E') || ('a' ≤ c2 && c2 ≤ 'e') then some c2
              else none
            | [] => none
          | _ => none
        | none => none
      else none
    | [] => none
  | none => none

/-- re.search of the `Correct Answer` pattern: leftmost position wins.
The captured letter keeps its original case (IGNORECASE lets a
lowercase letter through). -/
def searchAns : List Char → Option Char
  | [] => none
  | c :: rest =>
    match ansAt (c :: rest) with
    | some a => some a
    | none => searchAns rest

/-- Regex `^\s*Explanation\s*:\s*(.*)` with IGNORECASE. -/
def matchExpl (s : String) : Option String :=
  match stripCaseless ['e', 'x', 'p', 'l', 'a', 'n', 'a', 't', 'i', 'o', 'n']
      (dropWs s.toList) with
  | some r =>
    match dropWs r with
    | ':' :: rest => some (String.mk (dropWs rest))
    | _ => none
  | none => none

/-- Regex `^\s*Domain\s*:\s*(.*)$` (case-sensitive). -/
def matchDomain (s : String) : Option String :=
  match stripExact ['D', 'o', 'm', 'a', 'i', 'n'] (dropWs s.toList) with
  | some r =>
    match dropWs r with
    | ':' :: rest => some (String.mk (dropWs rest))
    | _ => none
  | none => none

/-- Regex `^\s*Competency\s*:\s*(.*)$` (case-sensitive). -/
def matchCompetency (s : String) : Option String :=
  match stripExact ['C', 'o', 'm', 'p', 'e', 't', 'e', 'n', 'c', 'y'] (dropWs s.toList) with
  | some r =>
    match dropWs r with
    | ':' :: rest => some (String.mk (dropWs rest))
    | _ => none
  | none => none

/-- `s2.strip().startswith(R-eturn to Question)`. -/
def isReturnToQuestion (s : String) : Bool :=
  startsWithL
    ['R', 'e', 't', 'u', 'r', 'n', ' ', 't', 'o', ' ',
     'Q', 'u', 'e', 's', 't', 'i', 'o', 'n'] (pyStrip s.toList)

/-! ### Text normalizer primitives

`re.sub` with the three patterns used by normalize_text / keyify is
compiled to single-pass structural recursions (a boolean records
whether the scanner is inside the run being rewritten). -/

/-- `re.sub` of `-\s+` with the empty string: a hyphen immediately
followed by whitespace is deleted together with the whitespace run.
The flag is true while the whitespace run of a deleted hyphen is being
consumed. -/
def hyphenFixAux : List Char → Bool → List Char
  | [], _ => []
  | c :: rest, skipping =>
    if skipping && pyIsSpace c then hyphenFixAux rest true
    else if c = '-' then
      match rest with
      | d :: _ => if pyIsSpace d then hyphenFixAux rest true
                  else '-' :: hyphenFixAux rest false
      | [] => ['-']
    else c :: hyphenFixAux rest false

def hyphenFix (l : List Char) : List Char := hyphenFixAux l false

/-- The four str.replace calls unifying curly quotes. -/
def quoteChar (c : Char) : Char :=
  if c = '’' || c = '‘' then '\''
  else if c = '“' || c = '”' then '"'
  else c

def quoteMap (l : List Char) : List Char := l.map quoteChar

/-- `re.sub` of `\s+` with a single space.  The flag is true while
inside a whitespace run whose replacement space was already emitted. -/
def collapseWsAux : List Char → Bool → List Char
  | [], _ => []
  | c :: rest, inRun =>
    if pyIsSpace c then
      if inRun then collapseWsAux rest true
      else ' ' :: collapseWsAux rest true
    else c :: collapseWsAux rest false

def collapseWs (l : List Char) : List Char := collapseWsAux l false

/-- Characters of the keyify class `[a-z0-9 ]`. -/
def isKeyChar (c : Char) : Bool :=
  let n := c.toNat
  (97 ≤ n && n ≤ 122) || (48 ≤ n && n ≤ 57) || n = 32

/-- `re.sub` of `[^a-z0-9 ]+` with a single space.  The flag is true
while inside a run of excluded characters whose replacement space was
already emitted. -/
def keyFilterAux : List Char → Bool → List Char
  | [], _ => []
  | c :: rest, inRun =>
    if isKeyChar c then c :: keyFilterAux rest false
    else if inRun then keyFilterAux rest true
    else ' ' :: keyFilterAux rest true

def keyFilter (l : List Char) : List Char := keyFilterAux l false

/-! ### Association lists with Python dict semantics -/

/-- Dict assignment `m[k] = v`: overwrite in place if present
(keeping the original position, as CPython dicts do), else append. -/
def setKey {κ α : Type} [DecidableEq κ] : List (κ × α) → κ → α → List (κ × α)
  | [], k, v => [(k, v)]
  | (k0, v0) :: rest, k, v =>
    if k0 = k then (k, v) :: rest else (k0, v0) :: setKey rest k v

/-- Dict lookup `m.get(k)`. -/
def lookupKey {κ α : Type} [DecidableEq κ] : List (κ × α) → κ → Option α
  | [], _ => none
  | (k0, v0) :: rest, k => if k0 = k then some v0 else lookupKey rest k

/-- In-place mutation of the value stored under an existing key
(`m[k].append(...)` style).  The sources only ever do this with a key
that is present, so the no-entry case is a no-op. -/
def updateKey {κ α : Type} [DecidableEq κ] : List (κ × α) → κ → (α → α) → List (κ × α)
  | [], _, _ => []
  | (k0, v0) :: rest, k, f =>
    if k0 = k then (k0, f v0) :: rest else (k0, v0) :: updateKey rest k f

/-- Option-valued mapM over a list, mirroring a Python loop that can
raise at any element: the first failure aborts the whole run. -/
def mapOptM {α β : Type} (f : α → Option β) : List α → Option (List β)
  | [] => some []
  | a :: as =>
    match f a, mapOptM f as with
    | some b, some bs => some (b :: bs)
    | _, _ => none

/-- The shared question-fragment join of both parsers: empty fragments
are dropped; a buffer ending in a literal hyphen is concatenated
directly to the next fragment with the hyphen removed; otherwise
fragments are joined by a single space. -/
def joinFrags (frags : List String) : String :=
  String.mk (frags.foldl
    (fun acc frag =>
      let f := pyStrip frag.toList
      if f.isEmpty then acc
      else if acc.getLast? = some '-' then acc.dropLast ++ f
      else if acc.isEmpty then f
      else acc ++ ' ' :: f) [])

namespace Build
/-! Embedding of src/tools/build_kcna_from_pdf.py (Pipeline A). -/

/-- clean_line: strip trailing newlines, delete soft hyphens (U+00AD).
The `s is None` guard of the source cannot arise for String input. -/
def clean_line (s : String) : String :=
  String.mk ((rstripNl s).toList.filter (fun c => c ≠ '­'))

/-- normalize_text: hyphen-break repair, curly-quote unification,
whitespace collapsing, strip — in that order. -/
def normalize_text (s : String) : String :=
  String.mk (pyStrip (collapseWs (quoteMap (hyphenFix s.toList))))

/-- keyify: normalize, lowercase, rewrite `[^a-z0-9 ]+` runs to a
space, collapse whitespace, strip. -/
def keyify (s : String) : String :=
  String.mk (pyStrip (collapseWs (keyFilter ((normalize_text s).toList.map Char.toLower))))

/-- The letter map of merge: `str(ch).strip().upper()` then lookup in
the fixed dict A0 B1 C2 D3 E4; anything else yields None. -/
def letter_to_index (ch : Option String) : Option Nat :=
  match ch with
  | none => none
  | some s =>
    match (pyStrip s.toList).map Char.toUpper with
    | ['A'] => some 0
    | ['B'] => some 1
    | ['C'] => some 2
    | ['D'] => some 3
    | ['E'] => some 4
    | _ => none

structure QuizQ where
  number : Nat
  question : String
  options : List String
  deriving Repr, DecidableEq

structure QuizSec where
  title : String
  questions : List QuizQ
  deriving Repr, DecidableEq

/-- parse_quizzes result: section key to section, insertion-ordered. -/
abbrev QuizMap := List (String × QuizSec)

/-- The question-text accumulation loop of parse_quizzes (indices j):
stop at the first option-start, question-start or Answer-prefixed line;
skip page-number artifacts; append stripped lines.  Returns the buffer
and the unconsumed suffix. -/
def questionBuf : List String → List String → List String × List String
  | [], acc => (acc, [])
  | s0 :: rest, acc =>
    let s := clean_line s0
    if (matchOpt s).isSome || (matchQ s).isSome || startsWithAnswer s then
      (acc, s0 :: rest)
    else if isPageArtifact s then questionBuf rest acc
    else questionBuf rest (acc ++ [pyStripS s])

/-- Flushing the buffer of the current option letter into the dict. -/
def optFlush (opts : List (Char × String)) (cur : Option Char) (buf : List String) :
    List (Char × String) :=
  match cur with
  | some L => setKey opts L (normalize_text (String.mk (pyJoinSpace buf)))
  | none => opts

/-- The option accumulation loop of parse_quizzes (indices k): stop at
a question-start or Answer-prefixed line (not consumed); an
option-start line flushes the previous letter and opens a new buffer;
continuation lines append to the open buffer (page artifacts skipped);
lines before any option letter are ignored. -/
def optLoop : List String → List (Char × String) → Option Char → List String →
    List (Char × String) × List String
  | [], opts, cur, buf => (optFlush opts cur buf, [])
  | s0 :: rest, opts, cur, buf =>
    let s := clean_line s0
    if (matchQ s).isSome || startsWithAnswer s then (optFlush opts cur buf, s0 :: rest)
    else
      match matchOpt s with
      | some (L, r) => optLoop rest (optFlush opts cur buf) (some L) [pyStripS r]
      | none =>
        match cur with
        | some _ =>
          if isPageArtifact s then optLoop rest opts cur buf
          else optLoop rest opts cur (buf ++ [pyStripS s])
        | none => optLoop rest opts cur buf

/-- `[opts.get(x) for x in ABCDE]` filtered by truthiness: fixed letter
order, None and empty strings dropped. -/
def buildOptions (opts : List (Char × String)) : List String :=
  (['A', 'B', 'C', 'D', 'E'].map (fun c => lookupKey opts c)).filterMap
    (fun o =>
      match o with
      | some t => if t = "" then none else some t
      | none => none)

/-- The outer line scan of parse_quizzes.  Fuel counts outer loop
iterations; each iteration consumes at least one line, so
`lines.length + 1` fuel never runs out. -/
def quizLoop : Nat → List String → Bool → Option String → QuizMap → QuizMap
  | 0, _, _, _, secs => secs
  | _ + 1, [], _, _, secs => secs
  | fuel + 1, s0 :: rest, inQ, curKey, secs =>
    let raw := clean_line s0
    if !inQ then quizLoop fuel rest (isQuizzesHeader raw) curKey secs
    else if isSolutionsHeader raw then secs
    else
      match matchSecN '1' raw with
      | some (idx, titleRaw) =>
        let key := "1." ++ idx
        quizLoop fuel rest true (some key) (setKey secs key ⟨normalize_text titleRaw, []⟩)
      | none =>
        match matchQ raw, curKey with
        | some (num, g2), some key =>
          let qb := questionBuf rest [pyStripS g2]
          let qtext := normalize_text (joinFrags qb.1)
          let ol := optLoop qb.2 [] none []
          let q : QuizQ := ⟨num, qtext, buildOptions ol.1⟩
          quizLoop fuel ol.2 true (some key)
            (updateKey secs key (fun sec => ⟨sec.title, sec.questions ++ [q]⟩))
        | _, _ => quizLoop fuel rest true curKey secs

def parse_quizzes (lines : List String) : QuizMap :=
  quizLoop (lines.length + 1) lines false none []

structure SolQ where
  question : String
  answer : Option String
  explanation : String
  domain : Option String
  competency : Option String
  deriving Repr, DecidableEq

/-- parse_solutions result: section key to number-keyed records. -/
abbrev SolMap := List (String × List (Nat × SolQ))

/-- The question-text accumulation loop of parse_solutions: stop when
a Correct-Answer pattern is found in the line, or at a section header
or question-start; skip page artifacts; append stripped lines. -/
def solQBuf : List String → List String → List String × List String
  | [], acc => (acc, [])
  | s0 :: rest, acc =>
    let s := clean_line s0
    if (searchAns s.toList).isSome then (acc, s0 :: rest)
    else if (matchSecN '2' s).isSome || (matchQSol s).isSome then (acc, s0 :: rest)
    else if isPageArtifact s then solQBuf rest acc
    else solQBuf rest (acc ++ [pyStripS s])

/-- The explanation accumulation loop: stop at a section header or
question-start; Domain and Competency lines are diverted into their
fields (last one wins); page artifacts and Return-to-Question lines
are discarded; other lines append to the buffer. -/
def explLoop : List String → List String → Option String → Option String →
    List String × Option String × Option String × List String
  | [], acc, dom, comp => (acc, dom, comp, [])
  | s0 :: rest, acc, dom, comp =>
    let s := clean_line s0
    if (matchSecN '2' s).isSome || (matchQSol s).isSome then (acc, dom, comp, s0 :: rest)
    else
      match matchDomain s with
      | some d => explLoop rest acc (some (normalize_text d)) comp
      | none =>
        match matchCompetency s with
        | some c => explLoop rest acc dom (some (normalize_text c))
        | none =>
          if isPageArtifact s || isReturnToQuestion s then explLoop rest acc dom comp
          else explLoop rest (acc ++ [pyStripS s]) dom comp

structure AnsRes where
  ans : Option Char
  expl : List String
  domain : Option String
  competency : Option String
  rest : List String

/-- The answer/explanation scanning loop of parse_solutions: stop at a
section header or question-start; a Correct-Answer line records the
letter (last one wins); the first Explanation line seeds the
explanation buffer, runs the explanation loop and stops; other lines
are skipped. -/
def ansLoop : List String → Option Char → AnsRes
  | [], ans => ⟨ans, [], none, none, []⟩
  | s0 :: rest, ans =>
    let s := clean_line s0
    if (matchSecN '2' s).isSome || (matchQSol s).isSome then ⟨ans, [], none, none, s0 :: rest⟩
    else
      match searchAns s.toList with
      | some c => ansLoop rest (some c)
      | none =>
        match matchExpl s with
        | some e0 =>
          let r := explLoop rest [pyStripS e0] none none
          ⟨ans, r.1, r.2.1, r.2.2.1, r.2.2.2⟩
        | none => ansLoop rest ans

/-- The outer line scan of parse_solutions (fuel as in quizLoop).
The title of a solution section is computed but never stored by the
source, so it is dropped here as well. -/
def solLoop : Nat → List String → Bool → Option String → SolMap → SolMap
  | 0, _, _, _, secs => secs
  | _ + 1, [], _, _, secs => secs
  | fuel + 1, s0 :: rest, inSol, curKey, secs =>
    let raw := clean_line s0
    if !inSol then solLoop fuel rest (isSolutionsHeader raw) curKey secs
    else
      match matchSecN '2' raw with
      | some (idx, _) =>
        let key := "2." ++ idx
        solLoop fuel rest true (some key) (setKey secs key [])
      | none =>
        match curKey with
        | some key =>
          match matchQSol raw with
          | some (num, g2) =>
            let qb := solQBuf rest [pyStripS g2]
            let qtext := normalize_text (joinFrags qb.1)
            let ar := ansLoop qb.2 none
            let sq : SolQ :=
              ⟨qtext, ar.ans.map (fun c => String.mk [c]),
               normalize_text (String.mk (pyJoinSpace ar.expl)),
               ar.domain, ar.competency⟩
            solLoop fuel ar.rest true (some key)
              (updateKey secs key (fun m => setKey m num sq))
          | none => solLoop fuel rest true curKey secs
        | none => solLoop fuel rest true curKey secs

def parse_solutions (lines : List String) : SolMap :=
  solLoop (lines.length + 1) lines false none []

structure MergedQ where
  number : Nat
  question : String
  options : List String
  answer : Option String
  answerIndex : Option Nat
  explanation : String
  domain : String
  competency : String
  deriving Repr, DecidableEq

structure MergedSec where
  section_key : String
  title : String
  questions : List MergedQ
  deriving Repr, DecidableEq

/-- sec_map: `1.<idx>` is sent to `2.<idx>` (split on the dot). -/
def secToSolKey (k : String) : String :=
  "2." ++ String.mk ((splitOnDot k.toList).getD 1 [])

/-- One output record of merge.  When the question number has no
counterpart in the solution section the source evaluates
`s.get(domain)` with `s = None` and raises AttributeError — modelled
as `none` (the whole merge aborts). -/
def mergeQuestion (sol : List (Nat × SolQ)) (q : QuizQ) : Option MergedQ :=
  match lookupKey sol q.number with
  | some s =>
    some ⟨q.number, q.question, q.options, s.answer, letter_to_index s.answer,
          s.explanation, s.domain.getD "", s.competency.getD ""⟩
  | none => none

/-- `matched` counts records with nonempty options and a resolved
answer index (the `s and ...` conjunct is vacuous: a record is only
produced when the solution lookup succeeded). -/
def matchedCount (qs : List MergedQ) : Nat :=
  (qs.filter (fun r => !r.options.isEmpty && r.answerIndex.isSome)).length

/-- merge over the quiz sections: returns (sections, total, matched).
The JSON wrapper (source_file, generated_at timestamp, notes) is IO
glue and not modelled.  The `sol_key or qkey` fallback of the source
is dead code (section keys are never empty) and is dropped. -/
def mergeSections (sols : SolMap) : List (String × QuizSec) →
    Option (List MergedSec × Nat × Nat)
  | [] => some ([], 0, 0)
  | (qkey, sec) :: rest =>
    let solKey := secToSolKey qkey
    let sol := (lookupKey sols solKey).getD []
    match mapOptM (mergeQuestion sol) sec.questions, mergeSections sols rest with
    | some qs, some (tail, t, m) =>
      some (⟨solKey, sec.title, qs⟩ :: tail, sec.questions.length + t, matchedCount qs + m)
    | _, _ => none

def merge (quizzes : QuizMap) (solutions : SolMap) :
    Option (List MergedSec × Nat × Nat) :=
  mergeSections solutions quizzes

/-- All question records of a successful merge, in output order. -/
def mergedRecords (out : Option (List MergedSec × Nat × Nat)) : List MergedQ :=
  match out with
  | some (secs, _, _) => secs.flatMap MergedSec.questions
  | none => []

end Build

namespace Fill
/-! Embedding of src/tools/fill_options_from_pdf.py (Pipeline B). -/

/-- normalize_text of the fill tool: strip first, then hyphen-break
repair, curly-quote unification and whitespace collapsing (no final
strip).  The `s is None` guard cannot arise for String input. -/
def normalize_text (s : String) : String :=
  String.mk (collapseWs (quoteMap (hyphenFix (pyStrip s.toList))))

/-- keyify: same pipeline as in the build tool, over this file's
normalize_text. -/
def keyify (s : String) : String :=
  String.mk (pyStrip (collapseWs (keyFilter ((normalize_text s).toList.map Char.toLower))))

/-- The question-text accumulation loop of this parse_quizzes: lines
are only rstripped of newlines (no soft-hyphen removal here); stop at
the first option-start or question-start line — there is no
Answer-prefixed stop in this pipeline; skip page artifacts. -/
def questionBuf : List String → List String → List String × List String
  | [], acc => (acc, [])
  | s0 :: rest, acc =>
    let s := rstripNl s0
    if (matchOpt s).isSome || (matchQ s).isSome then (acc, s0 :: rest)
    else if isPageArtifact s then questionBuf rest acc
    else questionBuf rest (acc ++ [pyStripS s])

def optFlush (opts : List (Char × String)) (cur : Option Char) (buf : List String) :
    List (Char × String) :=
  match cur with
  | some L => setKey opts L (normalize_text (String.mk (pyJoinSpace buf)))
  | none => opts

/-- The option accumulation loop of this parse_quizzes: stop at the
solutions header or a question-start line (not consumed); an
Answer-prefixed line flushes and is consumed; an option-start line
flushes the previous letter and opens a new buffer; continuation lines
append (page artifacts skipped); lines before any letter are ignored. -/
def optLoop : List String → List (Char × String) → Option Char → List String →
    List (Char × String) × List String
  | [], opts, cur, buf => (optFlush opts cur buf, [])
  | s0 :: rest, opts, cur, buf =>
    let s := rstripNl s0
    if isSolutionsHeader s || (matchQ s).isSome then (optFlush opts cur buf, s0 :: rest)
    else if startsWithAnswer s then (optFlush opts cur buf, rest)
    else
      match matchOpt s with
      | some (L, r) => optLoop rest (optFlush opts cur buf) (some L) [pyStripS r]
      | none =>
        match cur with
        | some _ =>
          if isPageArtifact s then optLoop rest opts cur buf
          else optLoop rest opts cur (buf ++ [pyStripS s])
        | none => optLoop rest opts cur buf

/-- Ordered option list: fixed letter order A..E, entries that are
None, empty, or lowercase-empty dropped. -/
def buildOrdered (opts : List (Char × String)) : List String :=
  (['A', 'B', 'C', 'D', 'E'].map (fun c => lookupKey opts c)).filterMap
    (fun o =>
      match o with
      | some t =>
        if t ≠ "" && String.mk (t.toList.map Char.toLower) ≠ "" then some t else none
      | none => none)

/-- The outer line scan of this parse_quizzes, producing the map from
keyified question text to ordered option list.  A question only adds
an entry when its ordered option list is nonempty.  Fuel as in the
build parser. -/
def fillLoop : Nat → List String → Bool → List (String × List String) →
    List (String × List String)
  | 0, _, _, omap => omap
  | _ + 1, [], _, omap => omap
  | fuel + 1, s0 :: rest, inQ, omap =>
    let line := rstripNl s0
    if !inQ then fillLoop fuel rest (isQuizzesHeader line) omap
    else if isSolutionsHeader line then omap
    else
      match matchQ line with
      | some (_, g2) =>
        let qb := questionBuf rest [pyRStrip g2]
        let qtext := normalize_text (joinFrags qb.1)
        let ol := optLoop qb.2 [] none []
        let ordered := buildOrdered ol.1
        let omap2 := if ordered.isEmpty then omap else setKey omap (keyify qtext) ordered
        fillLoop fuel ol.2 true omap2
      | none => fillLoop fuel rest true omap

def parse_quizzes (lines : List String) : List (String × List String) :=
  fillLoop (lines.length + 1) lines false []

/-- The fatal-error gate of main: an empty option map aborts the run
with SystemExit, otherwise fill_json proceeds. -/
def mainGate (lines : List String) : Except String (List (String × List String)) :=
  let m := parse_quizzes lines
  if m.isEmpty then Except.error "Failed to parse any options from PDF text."
  else Except.ok m

/-! ### JSON model for fill_json -/

/-- JSON values as loaded by json.load.  Numbers are modelled as
integers (the only arithmetic use is the isinstance int check). -/
inductive JVal where
  | null
  | bool (b : Bool)
  | num (n : Int)
  | str (s : String)
  | arr (xs : List JVal)
  | obj (fs : List (String × JVal))
  deriving Repr

/-- Python truthiness of a JSON value. -/
def truthy : JVal → Bool
  | .null => false
  | .bool b => b
  | .num n => n ≠ 0
  | .str s => s ≠ ""
  | .arr xs => !xs.isEmpty
  | .obj fs => !fs.isEmpty

/-- isinstance(v, int): JSON true/false also pass, since Python bool
is a subclass of int. -/
def jIsInt : JVal → Bool
  | .num _ => true
  | .bool _ => true
  | _ => false

/-- Dict field lookup on an object field list (first match). -/
def lookupF (fs : List (String × JVal)) (k : String) : Option JVal :=
  lookupKey fs k

/-- letter_to_index of the fill tool, over a JSON value:
`str(ch).strip().upper()` only lands in the letter dict when ch is a
string (str() of None, numbers, bools, lists never does). -/
def letter_to_index : JVal → Option Nat
  | .str s => Build.letter_to_index (some s)
  | _ => none

/-- `q.get(answer) or q.get(Answer)`: a missing field behaves as
None/null. -/
def answerArg (fs : List (String × JVal)) : JVal :=
  let a := (lookupF fs "answer").getD JVal.null
  if truthy a then a else (lookupF fs "Answer").getD JVal.null

/-- `q.get(question) or empty-string`, fed to keyify, which calls
str.strip: a truthy non-string value would raise AttributeError there,
modelled as `none`. -/
def qtextOf (fs : List (String × JVal)) : Option String :=
  match (lookupF fs "question").getD JVal.null with
  | .str s => some s
  | v => if truthy v then none else some ""

/-- First half of process_question: overwrite options when the
keyified question text has a truthy entry in the option map. -/
def optionsStep (omap : List (String × List String)) (qtext : String)
    (fs : List (String × JVal)) : List (String × JVal) :=
  match lookupKey omap (keyify qtext) with
  | some opts =>
    if opts.isEmpty then fs else setKey fs "options" (JVal.arr (opts.map JVal.str))
  | none => fs

/-- Second half of process_question: set answerIndex when it is
missing or not an int and the letter-valued answer field maps. -/
def answerIndexStep (fs1 : List (String × JVal)) : List (String × JVal) :=
  if (match lookupF fs1 "answerIndex" with
      | some v => jIsInt v
      | none => false) then fs1
  else
    match letter_to_index (answerArg fs1) with
    | some ai => setKey fs1 "answerIndex" (JVal.num ai)
    | none => fs1

def process_question (omap : List (String × List String))
    (fs : List (String × JVal)) : Option (List (String × JVal)) :=
  match qtextOf fs with
  | none => none
  | some qtext => some (answerIndexStep (optionsStep omap qtext fs))

/-- Whether process_question counts this record as filled. -/
def filledFlag (omap : List (String × List String)) (fs : List (String × JVal)) : Bool :=
  match qtextOf fs with
  | some q =>
    (match lookupKey omap (keyify q) with
     | some o => !o.isEmpty
     | none => false)
  | none => false

/-- The per-question loop over a JSON list; a non-object element makes
process_question raise (q.get on a non-dict), modelled as `none`.
Returns the rewritten list with the (total, filled) counts. -/
def processQList (omap : List (String × List String)) :
    List JVal → Option (List JVal × Nat × Nat)
  | [] => some ([], 0, 0)
  | q :: rest =>
    match q with
    | .obj fs =>
      match process_question omap fs, processQList omap rest with
      | some fs2, some (rest2, t, f) =>
        some (.obj fs2 :: rest2, t + 1, f + (if filledFlag omap fs then 1 else 0))
      | _, _ => none
    | _ => none

/-- One section of the `{sections: [...]}` shape: `sec.get(questions, [])`
yields no iterations when the field is missing; a non-object section or
a present non-list questions field is outside the modelled domain
(`none`). -/
def processSection (omap : List (String × List String)) :
    JVal → Option (JVal × Nat × Nat)
  | .obj fs =>
    match lookupF fs "questions" with
    | some (.arr qs) =>
      match processQList omap qs with
      | some (qs2, t, f) => some (.obj (setKey fs "questions" (JVal.arr qs2)), t, f)
      | none => none
    | none => some (.obj fs, 0, 0)
    | some _ => none
  | _ => none

def processSections (omap : List (String × List String)) :
    List JVal → Option (List JVal × Nat × Nat)
  | [] => some ([], 0, 0)
  | sec :: rest =>
    match processSection omap sec, processSections omap rest with
    | some (sec2, t1, f1), some (rest2, t2, f2) => some (sec2 :: rest2, t1 + t2, f1 + f2)
    | _, _ => none

/-- fill_json on an in-memory dataset (the JSON file IO around it is
not modelled): a flat list or a `{sections: [...]}` object is
processed in place; every other shape is written out unchanged with
zero counts.  Returns (data, total, filled). -/
def fill_json (omap : List (String × List String)) (data : JVal) :
    Option (JVal × Nat × Nat) :=
  match data with
  | .arr qs =>
    match processQList omap qs with
    | some (qs2, t, f) => some (.arr qs2, t, f)
    | none => none
  | .obj fs =>
    match lookupF fs "sections" with
    | some (.arr secs) =>
      match processSections omap secs with
      | some (secs2, t, f) => some (.obj (setKey fs "sections" (JVal.arr secs2)), t, f)
      | none => none
    | _ => some (.obj fs, 0, 0)
  | v => some (v, 0, 0)

end Fill

/-! ### Spec-side comparison definitions

These definitions are written from the words of the spec (or of an
amended claim), to be compared with the source-derived functions
above.  They are never used inside the embedding itself. -/

/-- Lowercase-alphanumeric characters `[a-z0-9]` (the key class
without the space). -/
def isKeyAlnum (c : Char) : Bool :=
  let n := c.toNat
  (97 ≤ n && n ≤ 122) || (48 ≤ n && n ≤ 57)

/-- Replace a single character outside `[a-z0-9]` by a space. -/
def toSpace (c : Char) : Char :=
  if isKeyAlnum c then c else ' '

/-- Modelled from the spec wording of the keyify claim: apply
normalize_text, lowercase, DELETE every character outside `[a-z0-9 ]`,
then collapse whitespace runs and trim. -/
def keyifyDeleted (s : String) : String :=
  String.mk (pyStrip (collapseWs (((Build.normalize_text s).toList.map Char.toLower).filter isKeyChar)))

/-- The amended keyify claim for the build tool: apply normalize_text,
lowercase, REPLACE every character outside `[a-z0-9 ]` by a space,
then collapse whitespace runs and trim. -/
def keyifyReplacedBuild (s : String) : String :=
  String.mk (pyStrip (collapseWs (((Build.normalize_text s).toList.map Char.toLower).map toSpace)))

/-- The amended keyify claim for the fill tool (same pipeline over the
fill normalize_text). -/
def keyifyReplacedFill (s : String) : String :=
  String.mk (pyStrip (collapseWs (((Fill.normalize_text s).toList.map Char.toLower).map toSpace)))

/-- The stop condition of the build-tool question buffer: option
start, question start, or stripped Answer prefix. -/
def buildQStop (s : String) : Bool :=
  (matchOpt s).isSome || (matchQ s).isSome || startsWithAnswer s

/-- The stop condition of the fill-tool question buffer: option start
or question start only. -/
def fillQStop (s : String) : Bool :=
  (matchOpt s).isSome || (matchQ s).isSome

/-- The contribution of a consumed line to the build-tool question
buffer: page artifacts contribute nothing, other lines their stripped
text. -/
def buildFrag (l : String) : Option String :=
  let s := Build.clean_line l
  if isPageArtifact s then none else some (pyStripS s)

/-- As buildFrag, for the fill tool (newline-rstripped lines). -/
def fillFrag (l : String) : Option String :=
  let s := rstripNl l
  if isPageArtifact s then none else some (pyStripS s)

/-- Elementwise description of processQList: same length, and every
object element of the input is rewritten by process_question. -/
def QListRel (omap : List (String × List String)) (qs qs2 : List Fill.JVal) : Prop :=
  qs2.length = qs.length ∧
  ∀ (j : Nat) (fs : List (String × Fill.JVal)), qs[j]? = some (Fill.JVal.obj fs) →
    ∃ fs2, qs2[j]? = some (Fill.JVal.obj fs2) ∧ Fill.process_question omap fs = some fs2

/-! ### Concrete inputs used by counterexamples and witnesses -/

/-- A document whose single quiz question offers one option while its
solution names letter E. -/
def linesOneOptAnsE : List String :=
  ["1 Quizzes", "1.1 T", "1. Q one", "A. optA", "Answer",
   "2 Solutions", "2.1 T", "1. Question Q one", "Correct Answer: E"]

/-- The record merge produces for linesOneOptAnsE. -/
def recOneOptAnsE : Build.MergedQ :=
  ⟨1, "Q one", ["optA"], some "E", some 4, "", "", ""⟩

/-- The full merge output for linesOneOptAnsE. -/
def outOneOptAnsE : List Build.MergedSec × Nat × Nat :=
  ([⟨"2.1", "T", [recOneOptAnsE]⟩], 1, 1)

/-- A document with a quiz question and no solutions section at all. -/
def linesNoSolutions : List String :=
  ["1 Quizzes", "1.1 T", "1. Q", "A. x"]

/-- A minimal document from which the fill parser recovers one option
list. -/
def linesOneOption : List String :=
  ["1 Quizzes", "1. Q", "A. x"]

/-! ### Claim C2 -/

/-- C2: the claim states that any input other than the uppercase
letters A-E — including lowercase letters — maps to null.  In fact
letter_to_index strips and uppercases its argument first, so the
lowercase letter a maps to 0, not to null. -/
theorem spec_C2_counterexample :
    Build.letter_to_index (some "a") = some 0 ∧ some 0 ≠ (none : Option Nat) :=
  ⟨rfl, by decide⟩

/-- C2 (amended): letter_to_index sends null to null and a string to
some index i exactly when i < 5 and the whitespace-stripped uppercased
string is the single letter at code point 65 + i (so A-E map to 0-4
case-insensitively and with surrounding whitespace ignored, and every
other value maps to null); the fill-tool variant agrees on strings and
sends JSON null to null. -/
theorem spec_C2_letter_map_amended :
    Build.letter_to_index none = none ∧
    (∀ (s : String) (i : Nat), Build.letter_to_index (some s) = some i ↔
      i < 5 ∧ (pyStrip s.toList).map Char.toUpper = [Char.ofNat (65 + i)]) ∧
    (∀ s : String, Fill.letter_to_index (Fill.JVal.str s) = Build.letter_to_index (some s)) ∧
    Fill.letter_to_index Fill.JVal.null = none := by
  refine ⟨rfl, ?_, fun s => rfl, rfl⟩
  intro s i
  constructor
  · intro h
    simp only [Build.letter_to_index] at h
    split at h <;> rename_i heq <;>
      first
        | (injection h with h2; subst h2; exact ⟨by omega, by rw [heq]⟩)
        | exact absurd h (by simp)
  · rintro ⟨hi, hc⟩
    interval_cases i <;> (simp only [Build.letter_to_index]; rw [hc]; rfl)

/-- C2 witness: the amended characterisation applied to a padded
lowercase letter. -/
theorem spec_C2_witness : Build.letter_to_index (some " b ") = some 1 :=
  (spec_C2_letter_map_amended.2.1 " b " 1).mpr ⟨by omega, by decide⟩

/-! ### Claim C3 -/

/-- C3: the claim says keyify DELETES every character outside
`[a-z0-9 ]`.  The source replaces each such run by a space instead, so
an embedded hyphen becomes a word break. -/
theorem spec_C3_counterexample :
    Build.keyify "a-b" = "a b" ∧ keyifyDeleted "a-b" = "ab" ∧ ("a b" : String) ≠ "ab" :=
  ⟨by decide, by decide, by decide⟩

theorem isKeyAlnum_keyChar {c : Char} (h : isKeyAlnum c = true) : isKeyChar c = true := by
  simp only [isKeyAlnum, isKeyChar, Bool.or_eq_true, Bool.and_eq_true,
    decide_eq_true_eq] at h ⊢
  omega

theorem isKeyAlnum_not_space {c : Char} (h : isKeyAlnum c = true) : pyIsSpace c = false := by
  rw [Bool.eq_false_iff]
  simp only [ne_eq, isKeyAlnum, pyIsSpace, Bool.or_eq_true, Bool.and_eq_true,
    decide_eq_true_eq] at h ⊢
  omega

theorem isKeyChar_space {c : Char} (h1 : isKeyChar c = true) (h2 : isKeyAlnum c = false) :
    pyIsSpace c = true := by
  rw [Bool.eq_false_iff] at h2
  simp only [ne_eq, isKeyAlnum, isKeyChar, pyIsSpace, Bool.or_eq_true, Bool.and_eq_true,
    decide_eq_true_eq] at h1 h2 ⊢
  omega

theorem isKeyChar_false_alnum {c : Char} (h : isKeyChar c = false) : isKeyAlnum c = false := by
  rw [Bool.eq_false_iff] at h ⊢
  simp only [ne_eq, isKeyAlnum, isKeyChar, Bool.or_eq_true, Bool.and_eq_true,
    decide_eq_true_eq] at h ⊢
  omega

/-- Rewriting excluded-character runs to one space (keyFilterAux) and
rewriting every excluded character to a space agree up to the
subsequent whitespace collapsing. -/
theorem collapse_keyFilter (t : List Char) :
    (∀ q, collapseWsAux (keyFilterAux t false) q = collapseWsAux (t.map toSpace) q) ∧
    collapseWsAux (keyFilterAux t true) true = collapseWsAux (t.map toSpace) true := by
  induction t with
  | nil => exact ⟨fun _ => rfl, rfl⟩
  | cons c rest ih =>
    rcases ih with ⟨ihf, iht⟩
    by_cases hk : isKeyChar c = true
    · by_cases ha : isKeyAlnum c = true
      · have hs := isKeyAlnum_not_space ha
        constructor
        · intro q
          simp only [keyFilterAux, hk, if_true, List.map_cons, toSpace, ha,
            collapseWsAux, hs, Bool.false_eq_true, if_false, ihf]
        · simp only [keyFilterAux, hk, if_true, List.map_cons, toSpace, ha,
            collapseWsAux, hs, Bool.false_eq_true, if_false, ihf]
      · have ha' : isKeyAlnum c = false := by simpa using ha
        have hs := isKeyChar_space hk ha'
        have hsp : pyIsSpace ' ' = true := by decide
        constructor
        · intro q
          simp only [keyFilterAux, hk, if_true, List.map_cons, toSpace, ha',
            Bool.false_eq_true, if_false, collapseWsAux, hs, hsp, ihf]
        · simp only [keyFilterAux, hk, if_true, List.map_cons, toSpace, ha',
            Bool.false_eq_true, if_false, collapseWsAux, hs, hsp, ihf]
    · have hk' : isKeyChar c = false := by simpa using hk
      have ha' := isKeyChar_false_alnum hk'
      have hsp : pyIsSpace ' ' = true := by decide
      constructor
      · intro q
        simp only [keyFilterAux, hk', Bool.false_eq_true, if_false, List.map_cons,
          toSpace, ha', collapseWsAux, hsp, if_true, iht]
      · simp only [keyFilterAux, hk', Bool.false_eq_true, if_false, List.map_cons,
          toSpace, ha', collapseWsAux, hsp, if_true, iht]

/-- C3 (amended): keyify applies normalize_text, lowercases, REPLACES
every maximal run of characters outside `[a-z0-9 ]` by a single space
(equivalently, replaces each such character by a space), then
collapses whitespace runs and trims — in both tools. -/
theorem spec_C3_keyify_amended (s : String) :
    Build.keyify s = keyifyReplacedBuild s ∧ Fill.keyify s = keyifyReplacedFill s := by
  constructor
  · show String.mk (pyStrip (collapseWs (keyFilter _))) = _
    unfold keyifyReplacedBuild keyFilter collapseWs
    rw [(collapse_keyFilter _).1]
  · show String.mk (pyStrip (collapseWs (keyFilter _))) = _
    unfold keyifyReplacedFill keyFilter collapseWs
    rw [(collapse_keyFilter _).1]

/-! ### Claim C1 -/

/-- C1: the claim asserts every merged record with a non-null
answerIndex and nonempty options has answerIndex within
`[0, len(options)-1]`.  Running the full pipeline on a document whose
question offers one option while its solution answers E produces
answerIndex 4 with a single option: merge performs no range check. -/
theorem spec_C1_counterexample :
    (Build.mergedRecords (Build.merge (Build.parse_quizzes linesOneOptAnsE)
        (Build.parse_solutions linesOneOptAnsE))).map
        (fun r => (r.answerIndex, r.options.length)) = [(some 4, 1)] ∧
    ¬(4 ≤ 1 - 1) :=
  ⟨by decide, by decide⟩

theorem letter_to_index_le_four (x : Option String) (i : Nat)
    (h : Build.letter_to_index x = some i) : i ≤ 4 := by
  cases x with
  | none => exact absurd h (by simp [Build.letter_to_index])
  | some s =>
    simp only [Build.letter_to_index] at h
    split at h <;> first | (injection h with h2; omega) | exact absurd h (by simp)

theorem mapOptM_mem {α β : Type} (f : α → Option β) :
    ∀ (as : List α) (bs : List β) (b : β),
      mapOptM f as = some bs → b ∈ bs → ∃ a, a ∈ as ∧ f a = some b := by
  intro as
  induction as with
  | nil =>
    intro bs b h hb
    simp only [mapOptM, Option.some.injEq] at h
    subst h
    simp at hb
  | cons a rest ih =>
    intro bs b h hb
    simp only [mapOptM] at h
    cases hfa : f a with
    | none => rw [hfa] at h; exact absurd h (by simp)
    | some b0 =>
      cases hrest : mapOptM f rest with
      | none => rw [hfa, hrest] at h; exact absurd h (by simp)
      | some bs0 =>
        rw [hfa, hrest] at h
        injection h with h2
        subst h2
        rcases List.mem_cons.mp hb with hb0 | hbs
        · exact ⟨a, List.mem_cons_self a rest, by rw [hfa, hb0]⟩
        · obtain ⟨a2, ha2, hfa2⟩ := ih bs0 b hrest hbs
          exact ⟨a2, List.mem_cons_of_mem a ha2, hfa2⟩

theorem mergeSections_mem :
    ∀ (qz : List (String × Build.QuizSec)) (sols : Build.SolMap)
      (res : List Build.MergedSec × Nat × Nat) (r : Build.MergedQ),
      Build.mergeSections sols qz = some res →
      r ∈ res.1.flatMap Build.MergedSec.questions →
      ∃ sol q, Build.mergeQuestion sol q = some r := by
  intro qz
  induction qz with
  | nil =>
    intro sols res r h hr
    simp only [Build.mergeSections, Option.some.injEq] at h
    subst h
    simp at hr
  | cons p rest ih =>
    intro sols res r h hr
    obtain ⟨qkey, sec⟩ := p
    simp only [Build.mergeSections] at h
    cases h1 : mapOptM (Build.mergeQuestion
        ((lookupKey sols (Build.secToSolKey qkey)).getD [])) sec.questions with
    | none => rw [h1] at h; exact absurd h (by simp)
    | some qs =>
      cases h2 : Build.mergeSections sols rest with
      | none => rw [h1, h2] at h; exact absurd h (by simp)
      | some tres =>
        obtain ⟨tail, t, m⟩ := tres
        rw [h1, h2] at h
        injection h with h3
        subst h3
        simp only [List.flatMap_cons, List.mem_append] at hr
        rcases hr with hq | htail
        · obtain ⟨q, hq1, hq2⟩ := mapOptM_mem _ sec.questions qs r h1 hq
          exact ⟨_, q, hq2⟩
        · exact ih sols (tail, t, m) r h2 (by simpa using htail)

/-- C1 (amended): in every record a successful merge produces,
answerIndex equals the fixed letter map applied to the answer field,
and is at most 4 when non-null.  The stronger bound
`answerIndex < len(options)` claimed by the spec does not hold (see
the counterexample): merge never checks the index against the option
list. -/
theorem spec_C1_answerIndex_amended
    (qz : Build.QuizMap) (sols : Build.SolMap)
    (res : List Build.MergedSec × Nat × Nat) (r : Build.MergedQ)
    (hm : Build.merge qz sols = some res)
    (hr : r ∈ res.1.flatMap Build.MergedSec.questions) :
    r.answerIndex = Build.letter_to_index r.answer ∧
    ∀ i, r.answerIndex = some i → i ≤ 4 := by
  obtain ⟨sol, q, hq⟩ := mergeSections_mem qz sols res r hm hr
  simp only [Build.mergeQuestion] at hq
  split at hq
  · injection hq with hq2
    subst hq2
    exact ⟨rfl, fun i h => letter_to_index_le_four _ i h⟩
  · exact absurd hq (by simp)

/-- C1 witness: the amended statement applied to the concrete pipeline
output for linesOneOptAnsE. -/
theorem spec_C1_witness :
    recOneOptAnsE.answerIndex = Build.letter_to_index recOneOptAnsE.answer ∧
    ∀ i, recOneOptAnsE.answerIndex = some i → i ≤ 4 :=
  spec_C1_answerIndex_amended (Build.parse_quizzes linesOneOptAnsE)
    (Build.parse_solutions linesOneOptAnsE) outOneOptAnsE recOneOptAnsE
    (by decide) (by decide)

/-! ### Claim C5 -/

/-- C5: the claim (and the spec) promise that a quiz question whose
number has no counterpart in the parsed solutions yields a record with
answer null, answerIndex null and empty explanation.  The source
instead evaluates `s.get(domain)` unconditionally, so with `s = None`
the merge raises AttributeError: on a document with a quiz question
and no solutions section the quiz parser succeeds but merge aborts
(modelled as none).  The three adjacent fields are guarded with
`if s else`, showing the unguarded domain/competency lookups are a
slip; the claim describes the evident intent. -/
theorem spec_C5_merge_crash :
    Build.parse_quizzes linesNoSolutions = [("1.1", ⟨"T", [⟨1, "Q", ["x"]⟩]⟩)] ∧
    Build.parse_solutions linesNoSolutions = [] ∧
    Build.merge (Build.parse_quizzes linesNoSolutions)
      (Build.parse_solutions linesNoSolutions) = none :=
  ⟨by decide, by decide, by decide⟩

/-! ### Claim C4 -/

/-- C4: the claim says both question buffers stop at the first
Answer-prefixed line.  The fill-tool buffer has no such stop: it
absorbs the Answer line into the question text, while the build-tool
buffer stops before it. -/
theorem spec_C4_counterexample :
    (Fill.questionBuf ["Answer here", "A. x"] []).1 = ["Answer here"] ∧
    (Build.questionBuf ["Answer here", "A. x"] []).1 = [] ∧
    (["Answer here"] : List String) ≠ [] :=
  ⟨by decide, by decide, by decide⟩

/-- C4 (amended): the build-tool question buffer collects the stripped
text of every line (page artifacts excluded) before the first
option-start, question-start or Answer-prefixed line; the fill-tool
buffer does the same but stops only at option-start or question-start
lines — Answer-prefixed lines are absorbed.  Whitespace-and-digit
lines contribute nothing in either tool. -/
theorem spec_C4_question_buffer_amended (xs : List String) :
    ∀ acc : List String,
      Build.questionBuf xs acc =
        (acc ++ (xs.takeWhile (fun l => !buildQStop (Build.clean_line l))).filterMap buildFrag,
         xs.dropWhile (fun l => !buildQStop (Build.clean_line l))) ∧
      Fill.questionBuf xs acc =
        (acc ++ (xs.takeWhile (fun l => !fillQStop (rstripNl l))).filterMap fillFrag,
         xs.dropWhile (fun l => !fillQStop (rstripNl l))) := by
  induction xs with
  | nil => intro acc; simp [Build.questionBuf, Fill.questionBuf]
  | cons x rest ih =>
    intro acc
    constructor
    · by_cases hstop : buildQStop (Build.clean_line x) = true
      · have hc : ((matchOpt (Build.clean_line x)).isSome ||
            (matchQ (Build.clean_line x)).isSome ||
            startsWithAnswer (Build.clean_line x)) = true := hstop
        simp [Build.questionBuf, hc, List.takeWhile_cons, List.dropWhile_cons, hstop]
      · have hc : ((matchOpt (Build.clean_line x)).isSome ||
            (matchQ (Build.clean_line x)).isSome ||
            startsWithAnswer (Build.clean_line x)) = false :=
          Bool.eq_false_iff.mpr hstop
        by_cases hart : isPageArtifact (Build.clean_line x) = true
        · have hfrag : buildFrag x = none := by simp [buildFrag, hart]
          simp [Build.questionBuf, hc, List.takeWhile_cons, List.dropWhile_cons, hstop,
            hart, hfrag, (ih acc).1]
        · have hart' : isPageArtifact (Build.clean_line x) = false := by simpa using hart
          have hfrag : buildFrag x = some (pyStripS (Build.clean_line x)) := by
            simp [buildFrag, hart']
          simp [Build.questionBuf, hc, hart', List.takeWhile_cons, List.dropWhile_cons,
            hstop, hfrag, (ih (acc ++ [pyStripS (Build.clean_line x)])).1]
    · by_cases hstop : fillQStop (rstripNl x) = true
      · have hc : ((matchOpt (rstripNl x)).isSome || (matchQ (rstripNl x)).isSome) = true :=
          hstop
        simp [Fill.questionBuf, hc, List.takeWhile_cons, List.dropWhile_cons, hstop]
      · have hc : ((matchOpt (rstripNl x)).isSome || (matchQ (rstripNl x)).isSome) = false :=
          Bool.eq_false_iff.mpr hstop
        by_cases hart : isPageArtifact (rstripNl x) = true
        · have hfrag : fillFrag x = none := by simp [fillFrag, hart]
          simp [Fill.questionBuf, hc, List.takeWhile_cons, List.dropWhile_cons, hstop,
            hart, hfrag, (ih acc).2]
        · have hart' : isPageArtifact (rstripNl x) = false := by simpa using hart
          have hfrag : fillFrag x = some (pyStripS (rstripNl x)) := by
            simp [fillFrag, hart']
          simp [Fill.questionBuf, hc, hart', List.takeWhile_cons, List.dropWhile_cons,
            hstop, hfrag, (ih (acc ++ [pyStripS (rstripNl x)])).2]

/-! ### Claim C6 -/

theorem mk_toLower_ne_empty {t : String} (h : t ≠ "") :
    String.mk (t.data.map Char.toLower) ≠ "" := by
  intro hc
  apply h
  have h1 : t.data.map Char.toLower = [] := by
    simpa using congrArg String.toList hc
  have h2 : t.data = [] := by simpa using h1
  cases t with
  | mk data => subst h2; rfl

/-- C6: the parsed option list is the per-letter texts in fixed order
A,B,C,D,E with absent or empty letters dropped entirely; when only B
and D carry text the result is exactly the two-element list of their
texts, with no gap — in both tools. -/
theorem spec_C6_option_order
    (opts : List (Char × String)) (b d : String)
    (hA : lookupKey opts 'A' = none ∨ lookupKey opts 'A' = some "")
    (hB : lookupKey opts 'B' = some b) (hbne : b ≠ "")
    (hC : lookupKey opts 'C' = none ∨ lookupKey opts 'C' = some "")
    (hD : lookupKey opts 'D' = some d) (hdne : d ≠ "")
    (hE : lookupKey opts 'E' = none ∨ lookupKey opts 'E' = some "") :
    Build.buildOptions opts = [b, d] ∧ Fill.buildOrdered opts = [b, d] := by
  have hbl := mk_toLower_ne_empty hbne
  have hdl := mk_toLower_ne_empty hdne
  constructor
  · unfold Build.buildOptions
    rcases hA with hA | hA <;> rcases hC with hC | hC <;> rcases hE with hE | hE <;>
      simp [hA, hB, hC, hD, hE, hbne, hdne]
  · unfold Fill.buildOrdered
    rcases hA with hA | hA <;> rcases hC with hC | hC <;> rcases hE with hE | hE <;>
      simp [hA, hB, hC, hD, hE, hbne, hdne, hbl, hdl, List.filterMap_cons]

/-- C6 witness: a letter map carrying only B and D. -/
theorem spec_C6_witness :
    Build.buildOptions [('B', "bb"), ('D', "dd")] = ["bb", "dd"] ∧
    Fill.buildOrdered [('B', "bb"), ('D', "dd")] = ["bb", "dd"] :=
  spec_C6_option_order [('B', "bb"), ('D', "dd")] "bb" "dd"
    (Or.inl (by decide)) (by decide) (by decide) (Or.inl (by decide))
    (by decide) (by decide) (Or.inl (by decide))

/-! ### Claim C8 -/

theorem setKey_forall {κ α : Type} [DecidableEq κ] (P : κ × α → Prop) :
    ∀ (m : List (κ × α)) (k : κ) (v : α), (∀ kv ∈ m, P kv) → P (k, v) →
      ∀ kv ∈ setKey m k v, P kv := by
  intro m
  induction m with
  | nil =>
    intro k v _ hp kv hkv
    simp only [setKey, List.mem_singleton] at hkv
    exact hkv ▸ hp
  | cons p rest ih =>
    intro k v hm hp kv hkv
    obtain ⟨k0, v0⟩ := p
    simp only [setKey] at hkv
    split at hkv
    · rcases List.mem_cons.mp hkv with h0 | h0
      · exact h0 ▸ hp
      · exact hm kv (List.mem_cons_of_mem _ h0)
    · rcases List.mem_cons.mp hkv with h0 | h0
      · exact h0 ▸ hm (k0, v0) (List.mem_cons_self _ _)
      · exact ih k v (fun kv2 hkv2 => hm kv2 (List.mem_cons_of_mem _ hkv2)) hp kv h0

theorem fillLoop_values (fuel : Nat) :
    ∀ (lines : List String) (inQ : Bool) (omap : List (String × List String)),
      (∀ kv ∈ omap, kv.2 ≠ ([] : List String)) →
      ∀ kv ∈ Fill.fillLoop fuel lines inQ omap, kv.2 ≠ [] := by
  induction fuel with
  | zero =>
    intro lines inQ omap h kv hkv
    simp only [Fill.fillLoop] at hkv
    exact h kv hkv
  | succ fuel ih =>
    intro lines inQ omap h kv hkv
    cases lines with
    | nil =>
      simp only [Fill.fillLoop] at hkv
      exact h kv hkv
    | cons x rest =>
      simp only [Fill.fillLoop] at hkv
      split at hkv
      · exact ih rest _ omap h kv hkv
      · split at hkv
        · exact h kv hkv
        · split at hkv
          · rename_i mq num g2
            split at hkv
            · exact ih _ _ omap h kv hkv
            · rename_i hne
              refine ih _ _ _ ?_ kv hkv
              refine setKey_forall _ omap _ _ h ?_
              simpa using hne
          · exact ih rest _ omap h kv hkv

/-- C8: the fill pipeline aborts exactly when the option-recovery scan
over the whole document yields an empty option map, and every entry of
that map is a nonempty ordered option list (an entry is only added
when a question produced one), so emptiness of the map is equivalent
to no question yielding options. -/
theorem spec_C8_fatal_iff_empty (lines : List String) :
    ((∃ m, Fill.mainGate lines = Except.ok m) ↔ Fill.parse_quizzes lines ≠ []) ∧
    (∀ k v, (k, v) ∈ Fill.parse_quizzes lines → v ≠ []) := by
  constructor
  · unfold Fill.mainGate
    by_cases h : (Fill.parse_quizzes lines).isEmpty = true
    · simp [h, List.isEmpty_iff.mp h]
    · have h2 : Fill.parse_quizzes lines ≠ [] := by
        intro hc
        rw [hc] at h
        exact h rfl
      simp [h, h2]
  · intro k v hkv
    exact fillLoop_values _ lines false [] (by simp) (k, v) hkv

/-- C8 witness: a document from which one option list is recovered
passes the gate, and the recovered entry is nonempty. -/
theorem spec_C8_witness :
    (∃ m, Fill.mainGate linesOneOption = Except.ok m) ∧ (["x"] : List String) ≠ [] := by
  have h := spec_C8_fatal_iff_empty linesOneOption
  exact ⟨h.1.mpr (by decide), h.2 "q" ["x"] (by decide)⟩

/-! ### Claim C9 -/

theorem normalizeB_of_toList (l : List Char) :
    Build.normalize_text (String.mk l) =
      String.mk (pyStrip (collapseWs (quoteMap (hyphenFix l)))) := rfl

theorem normalizeF_of_toList (l : List Char) :
    Fill.normalize_text (String.mk l) =
      String.mk (collapseWs (quoteMap (hyphenFix (pyStrip l)))) := rfl

theorem hyphenFixAux_skip :
    ∀ (w l : List Char), (∀ c ∈ w, pyIsSpace c = true) →
      hyphenFixAux (w ++ l) true = hyphenFixAux l true := by
  intro w
  induction w with
  | nil => intro l _; rfl
  | cons c w2 ih =>
    intro l hw
    have hc : pyIsSpace c = true := hw c (List.mem_cons_self _ _)
    simp only [List.cons_append, hyphenFixAux, hc, Bool.and_true, if_true]
    exact ih l (fun d hd => hw d (List.mem_cons_of_mem _ hd))

/-- C9: normalizing a fragment ending in a hyphen directly followed by
a nonempty whitespace run and a continuation yields the joined word:
the hyphen and the whitespace are deleted before collapsing, in both
tools. -/
theorem spec_C9_hyphen_repair (w : List Char) (hne : w ≠ [])
    (hws : ∀ c ∈ w, pyIsSpace c = true) :
    Build.normalize_text
        (String.mk (['d', 'i', '-'] ++ w ++ ['r', 'e', 'c', 't', 'l', 'y'])) = "directly" ∧
    Fill.normalize_text
        (String.mk (['d', 'i', '-'] ++ w ++ ['r', 'e', 'c', 't', 'l', 'y'])) = "directly" := by
  obtain ⟨c0, w2, rfl⟩ := List.exists_cons_of_ne_nil hne
  have hc0 : pyIsSpace c0 = true := hws c0 (List.mem_cons_self _ _)
  have hw2 : ∀ c ∈ w2, pyIsSpace c = true := fun c hc => hws c (List.mem_cons_of_mem _ hc)
  have hfront : hyphenFix ((['d', 'i', '-'] ++ (c0 :: w2)) ++ ['r', 'e', 'c', 't', 'l', 'y'])
      = 'd' :: 'i' :: hyphenFixAux (c0 :: (w2 ++ ['r', 'e', 'c', 't', 'l', 'y'])) true := by
    show 'd' :: 'i' ::
        (if pyIsSpace c0 then hyphenFixAux (c0 :: (w2 ++ ['r', 'e', 'c', 't', 'l', 'y'])) true
         else '-' :: hyphenFixAux (c0 :: (w2 ++ ['r', 'e', 'c', 't', 'l', 'y'])) false) = _
    rw [if_pos hc0]
  have hstep : hyphenFixAux (c0 :: (w2 ++ ['r', 'e', 'c', 't', 'l', 'y'])) true
      = hyphenFixAux (w2 ++ ['r', 'e', 'c', 't', 'l', 'y']) true := by
    simp [hyphenFixAux, hc0]
  have hfix : hyphenFix ((['d', 'i', '-'] ++ (c0 :: w2)) ++ ['r', 'e', 'c', 't', 'l', 'y'])
      = ['d', 'i', 'r', 'e', 'c', 't', 'l', 'y'] := by
    rw [hfront, hstep, hyphenFixAux_skip w2 _ hw2]
    decide
  have hstrip : pyStrip ((['d', 'i', '-'] ++ (c0 :: w2)) ++ ['r', 'e', 'c', 't', 'l', 'y'])
      = (['d', 'i', '-'] ++ (c0 :: w2)) ++ ['r', 'e', 'c', 't', 'l', 'y'] := by
    have hd : pyIsSpace 'd' = false := by decide
    have hy : pyIsSpace 'y' = false := by decide
    unfold pyStrip
    simp [List.cons_append, List.dropWhile_cons, hd, hy, List.reverse_append,
      List.dropWhile, List.append_assoc]
  constructor
  · rw [normalizeB_of_toList, hfix]
    decide
  · rw [normalizeF_of_toList, hstrip, hfix]
    decide

/-- C9 witness: the spec example with a newline as the whitespace. -/
theorem spec_C9_witness :
    Build.normalize_text "di-\nrectly" = "directly" ∧
    Fill.normalize_text "di-\nrectly" = "directly" :=
  spec_C9_hyphen_repair ['\n'] (by decide) (by decide)

/-! ### Claim C7 -/

theorem lookup_setKey_self {κ α : Type} [DecidableEq κ] :
    ∀ (m : List (κ × α)) (k : κ) (v : α), lookupKey (setKey m k v) k = some v := by
  intro m
  induction m with
  | nil => intro k v; simp [setKey, lookupKey]
  | cons p rest ih =>
    intro k v
    obtain ⟨k0, v0⟩ := p
    by_cases h : k0 = k
    · simp [setKey, h, lookupKey]
    · simp [setKey, h, lookupKey, ih]

theorem lookup_setKey_ne {κ α : Type} [DecidableEq κ] :
    ∀ (m : List (κ × α)) (k k2 : κ) (v : α), k2 ≠ k →
      lookupKey (setKey m k v) k2 = lookupKey m k2 := by
  intro m
  induction m with
  | nil =>
    intro k k2 v hne
    simp only [setKey, lookupKey]
    rw [if_neg (fun h => hne h.symm)]
  | cons p rest ih =>
    intro k k2 v hne
    obtain ⟨k0, v0⟩ := p
    by_cases h : k0 = k
    · subst h
      simp only [setKey, if_pos rfl, lookupKey]
      rw [if_neg (fun h => hne h.symm), if_neg (fun h => hne h.symm)]
    · simp only [setKey, if_neg h, lookupKey]
      by_cases h2 : k0 = k2
      · rw [if_pos h2, if_pos h2]
      · rw [if_neg h2, if_neg h2]
        exact ih k k2 v hne

theorem answerArg_congr (m m2 : List (String × Fill.JVal))
    (h1 : Fill.lookupF m "answer" = Fill.lookupF m2 "answer")
    (h2 : Fill.lookupF m "Answer" = Fill.lookupF m2 "Answer") :
    Fill.answerArg m = Fill.answerArg m2 := by
  unfold Fill.answerArg
  rw [h1, h2]

theorem processQList_rel (omap : List (String × List String)) :
    ∀ (qs : List Fill.JVal) (res : List Fill.JVal × Nat × Nat),
      Fill.processQList omap qs = some res → QListRel omap qs res.1 := by
  intro qs
  induction qs with
  | nil =>
    intro res h
    simp only [Fill.processQList, Option.some.injEq] at h
    subst h
    exact ⟨rfl, by intro j fs hj; simp at hj⟩
  | cons q rest ih =>
    intro res h
    cases q with
    | obj fs0 =>
      simp only [Fill.processQList] at h
      cases hp : Fill.process_question omap fs0 with
      | none => rw [hp] at h; exact absurd h (by simp)
      | some fs2 =>
        cases hr : Fill.processQList omap rest with
        | none => rw [hp, hr] at h; exact absurd h (by simp)
        | some rres =>
          obtain ⟨rest2, t, f⟩ := rres
          rw [hp, hr] at h
          injection h with h2
          subst h2
          obtain ⟨hlen, hidx⟩ := ih (rest2, t, f) hr
          refine ⟨by simpa using hlen, ?_⟩
          intro j fs hj
          cases j with
          | zero =>
            simp only [List.getElem?_cons_zero, Option.some.injEq,
              Fill.JVal.obj.injEq] at hj
            subst hj
            exact ⟨fs2, by simp, hp⟩
          | succ j2 =>
            simp only [List.getElem?_cons_succ] at hj
            obtain ⟨fs2b, hg, hpb⟩ := hidx j2 fs hj
            exact ⟨fs2b, by simpa using hg, hpb⟩
    | null => simp [Fill.processQList] at h
    | bool b => simp [Fill.processQList] at h
    | num n => simp [Fill.processQList] at h
    | str s => simp [Fill.processQList] at h
    | arr xs => simp [Fill.processQList] at h

theorem processSections_len (omap : List (String × List String)) :
    ∀ (secs : List Fill.JVal) (res : List Fill.JVal × Nat × Nat),
      Fill.processSections omap secs = some res → res.1.length = secs.length := by
  intro secs
  induction secs with
  | nil =>
    intro res h
    simp only [Fill.processSections, Option.some.injEq] at h
    subst h
    rfl
  | cons sec rest ih =>
    intro res h
    simp only [Fill.processSections] at h
    cases hs : Fill.processSection omap sec with
    | none => rw [hs] at h; exact absurd h (by simp)
    | some sres =>
      obtain ⟨sec2, t1, f1⟩ := sres
      cases hr : Fill.processSections omap rest with
      | none => rw [hs, hr] at h; exact absurd h (by simp)
      | some rres =>
        obtain ⟨rest2, t2, f2⟩ := rres
        rw [hs, hr] at h
        injection h with h2
        subst h2
        simpa using ih (rest2, t2, f2) hr

theorem optionsStep_lookup_ne (omap : List (String × List String)) (qtext : String)
    (fs : List (String × Fill.JVal)) (g : String) (hg : g ≠ "options") :
    Fill.lookupF (Fill.optionsStep omap qtext fs) g = Fill.lookupF fs g := by
  unfold Fill.optionsStep
  cases lookupKey omap (Fill.keyify qtext) with
  | none => rfl
  | some opts =>
    by_cases he : opts.isEmpty
    · simp [he]
    · simp only [he, Bool.false_eq_true, if_false]
      exact lookup_setKey_ne fs "options" g _ hg

theorem optionsStep_of_none (omap : List (String × List String)) (qtext : String)
    (fs : List (String × Fill.JVal)) (h : lookupKey omap (Fill.keyify qtext) = none) :
    Fill.optionsStep omap qtext fs = fs := by
  unfold Fill.optionsStep
  rw [h]

theorem answerIndexStep_lookup_ne (fs1 : List (String × Fill.JVal)) (g : String)
    (hg : g ≠ "answerIndex") :
    Fill.lookupF (Fill.answerIndexStep fs1) g = Fill.lookupF fs1 g := by
  unfold Fill.answerIndexStep
  split
  · rfl
  · cases Fill.letter_to_index (Fill.answerArg fs1) with
    | none => rfl
    | some ai => exact lookup_setKey_ne fs1 "answerIndex" g _ hg

theorem answerIndexStep_of_int (fs1 : List (String × Fill.JVal)) (v : Fill.JVal)
    (hv : Fill.lookupF fs1 "answerIndex" = some v) (hint : Fill.jIsInt v = true) :
    Fill.answerIndexStep fs1 = fs1 := by
  unfold Fill.answerIndexStep
  rw [hv, if_pos hint]

theorem answerIndexStep_of_no_letter (fs1 : List (String × Fill.JVal))
    (h : Fill.letter_to_index (Fill.answerArg fs1) = none) :
    Fill.lookupF (Fill.answerIndexStep fs1) "answerIndex" = Fill.lookupF fs1 "answerIndex" := by
  unfold Fill.answerIndexStep
  split
  · rfl
  · rw [h]

/-- C7: the fill step preserves structure.  A processed question
record keeps every field other than options and answerIndex; options
is untouched when the keyified question text has no entry in the
option map; answerIndex is untouched when it is already present as an
int, and also when the letter-valued answer field fails to map.  A
flat-list dataset stays a flat list of the same length with each
object element rewritten by process_question, and a sections-object
dataset keeps all its other top-level fields and the section count. -/
theorem spec_C7_fill_frame :
    (∀ (omap : List (String × List String)) (fs fs2 : List (String × Fill.JVal)),
      Fill.process_question omap fs = some fs2 →
      (∀ g, g ≠ "options" → g ≠ "answerIndex" →
        Fill.lookupF fs2 g = Fill.lookupF fs g) ∧
      (∀ q, Fill.qtextOf fs = some q → lookupKey omap (Fill.keyify q) = none →
        Fill.lookupF fs2 "options" = Fill.lookupF fs "options") ∧
      (∀ v, Fill.lookupF fs "answerIndex" = some v → Fill.jIsInt v = true →
        Fill.lookupF fs2 "answerIndex" = some v) ∧
      (Fill.letter_to_index (Fill.answerArg fs) = none →
        Fill.lookupF fs2 "answerIndex" = Fill.lookupF fs "answerIndex")) ∧
    (∀ (omap : List (String × List String)) (qs : List Fill.JVal)
        (res : Fill.JVal × Nat × Nat),
      Fill.fill_json omap (Fill.JVal.arr qs) = some res →
      ∃ qs2, res.1 = Fill.JVal.arr qs2 ∧ QListRel omap qs qs2) ∧
    (∀ (omap : List (String × List String)) (fs : List (String × Fill.JVal))
        (secs : List Fill.JVal) (res : Fill.JVal × Nat × Nat),
      Fill.lookupF fs "sections" = some (Fill.JVal.arr secs) →
      Fill.fill_json omap (Fill.JVal.obj fs) = some res →
      ∃ fs2 secs2, res.1 = Fill.JVal.obj fs2 ∧
        (∀ g, g ≠ "sections" → Fill.lookupF fs2 g = Fill.lookupF fs g) ∧
        Fill.lookupF fs2 "sections" = some (Fill.JVal.arr secs2) ∧
        secs2.length = secs.length) := by
  refine ⟨?_, ?_, ?_⟩
  · intro omap fs fs2 hp
    simp only [Fill.process_question] at hp
    cases hq : Fill.qtextOf fs with
    | none => rw [hq] at hp; exact absurd hp (by simp)
    | some qtext =>
      rw [hq] at hp
      injection hp with hp2
      subst hp2
      have hansne : Fill.lookupF (Fill.optionsStep omap qtext fs) "answer" =
          Fill.lookupF fs "answer" :=
        optionsStep_lookup_ne omap qtext fs "answer" (by decide)
      have hAnsne : Fill.lookupF (Fill.optionsStep omap qtext fs) "Answer" =
          Fill.lookupF fs "Answer" :=
        optionsStep_lookup_ne omap qtext fs "Answer" (by decide)
      refine ⟨?_, ?_, ?_, ?_⟩
      · intro g hg1 hg2
        rw [answerIndexStep_lookup_ne _ g hg2, optionsStep_lookup_ne _ _ _ g hg1]
      · intro q hq2 hnone
        injection hq2 with hq3
        subst hq3
        rw [answerIndexStep_lookup_ne _ "options" (by decide),
          optionsStep_of_none omap _ fs hnone]
      · intro v hv hint
        have h1 : Fill.lookupF (Fill.optionsStep omap qtext fs) "answerIndex" = some v := by
          rw [optionsStep_lookup_ne omap qtext fs "answerIndex" (by decide)]
          exact hv
        rw [answerIndexStep_of_int _ v h1 hint]
        exact h1
      · intro hnol
        have hcong : Fill.answerArg (Fill.optionsStep omap qtext fs) = Fill.answerArg fs :=
          answerArg_congr _ _ hansne hAnsne
        rw [answerIndexStep_of_no_letter _ (by rw [hcong]; exact hnol),
          optionsStep_lookup_ne omap qtext fs "answerIndex" (by decide)]
  · intro omap qs res h
    simp only [Fill.fill_json] at h
    cases hql : Fill.processQList omap qs with
    | none => rw [hql] at h; exact absurd h (by simp)
    | some qres =>
      obtain ⟨qs2, t, f⟩ := qres
      rw [hql] at h
      injection h with h2
      subst h2
      exact ⟨qs2, rfl, processQList_rel omap qs (qs2, t, f) hql⟩
  · intro omap fs secs res hsec h
    simp only [Fill.fill_json, hsec] at h
    cases hps : Fill.processSections omap secs with
    | none => rw [hps] at h; exact absurd h (by simp)
    | some sres =>
      obtain ⟨secs2, t, f⟩ := sres
      rw [hps] at h
      injection h with h2
      subst h2
      refine ⟨setKey fs "sections" (Fill.JVal.arr secs2), secs2, rfl, ?_, ?_, ?_⟩
      · intro g hg
        exact lookup_setKey_ne fs "sections" g _ hg
      · exact lookup_setKey_self fs "sections" _
      · exact processSections_len omap secs (secs2, t, f) hps

/-- C7 witness: the frame statement applied to a record whose id field
is untouched by a processing run that fills its options. -/
theorem spec_C7_witness :
    Fill.lookupF [("question", Fill.JVal.str "Q"), ("id", Fill.JVal.num 7),
        ("options", Fill.JVal.arr [Fill.JVal.str "x"])] "id" =
      Fill.lookupF [("question", Fill.JVal.str "Q"), ("id", Fill.JVal.num 7)] "id" :=
  (spec_C7_fill_frame.1 [("q", ["x"]), ("zz", ["y"])]
    [("question", Fill.JVal.str "Q"), ("id", Fill.JVal.num 7)] _ rfl).1
    "id" (by decide) (by decide)

/-! ### Claim C10 -/

/-- C10: a dataset that is neither a JSON list nor an object whose
sections field is a list is passed through fill_json unchanged, with
zero total and filled counts and without raising. -/
theorem spec_C10_shape_passthrough
    (omap : List (String × List String)) (data : Fill.JVal)
    (harr : ∀ qs, data ≠ Fill.JVal.arr qs)
    (hobj : ∀ fs, data = Fill.JVal.obj fs →
      ∀ secs, Fill.lookupF fs "sections" ≠ some (Fill.JVal.arr secs)) :
    Fill.fill_json omap data = some (data, 0, 0) := by
  cases data with
  | arr qs => exact absurd rfl (harr qs)
  | obj fs =>
    simp only [Fill.fill_json]
    cases hs : Fill.lookupF fs "sections" with
    | none => rfl
    | some v =>
      cases v with
      | arr secs => exact absurd hs (by simpa using hobj fs rfl secs)
      | null => rfl
      | bool b => rfl
      | num n => rfl
      | str s => rfl
      | obj fs2 => rfl
  | null => rfl
  | bool b => rfl
  | num n => rfl
  | str s => rfl

/-- C10 witness: a bare string dataset is written out unchanged. -/
theorem spec_C10_witness :
    Fill.fill_json [] (Fill.JVal.str "nope") = some (Fill.JVal.str "nope", 0, 0) :=
  spec_C10_shape_passthrough [] (Fill.JVal.str "nope")
    (fun qs h => by cases h) (fun fs h => by cases h)
